/-
  Verification development for the bert.cpp core (tokenizer, loader, graph
  builder).  Strings are modelled as lists of bytes (Nat, values 0..255),
  machine floats as rationals, fallible code as Option / Except, and
  std::map values as functions into Option.  Every definition in the first
  part of the file is a shallow embedding of the corresponding function of
  src/bert.cpp; definitions marked as modelled from the spec are the
  comparison twins used by refinement claims.
-/

import Mathlib

set_option maxRecDepth 10000

/-!  ## Byte-level utilities (src/bert.cpp, utf8_len, line 235)  -/

/--
utf8_len from bert.cpp line 235: the byte length of a UTF-8 codepoint is
looked up from the high nibble of its leading byte.  For a byte c the high
nibble is c / 16; values outside 0..15 cannot arise for bytes and default
to 1.
-/
def utf8_len (c : Nat) : Nat :=
  [1, 1, 1, 1, 1, 1, 1, 1, 1, 1, 1, 1, 2, 2, 3, 4].getD (c / 16) 1

/-!  ## Accent stripping (src/bert.cpp, strip_accents, lines 241-272)

The C++ accentMap is a std::map from two-byte UTF-8 strings (the Latin-1
letters A-grave .. n-tilde, all of which encode as byte 195 followed by one
continuation byte) to single ASCII letters.  accentFold holds the second
byte of each key; accentLookup is map::find on the full chunk.  -/

/-- Association-list search (std::map find keyed by the second byte). -/
def assoc_find (b : Nat) : List (Nat × Nat) → Option Nat
  | [] => none
  | p :: ps => if b = p.1 then some p.2 else assoc_find b ps

/-- Second bytes of the 52 keys of the accent map of strip_accents, with
their ASCII folds (A E I O U Y C N in both cases). -/
def accentPairs : List (Nat × Nat) :=
  [(128, 65), (129, 65), (130, 65), (131, 65), (132, 65), (133, 65),
   (160, 97), (161, 97), (162, 97), (163, 97), (164, 97), (165, 97),
   (136, 69), (137, 69), (138, 69), (139, 69),
   (168, 101), (169, 101), (170, 101), (171, 101),
   (140, 73), (141, 73), (142, 73), (143, 73),
   (172, 105), (173, 105), (174, 105), (175, 105),
   (146, 79), (147, 79), (148, 79), (149, 79), (150, 79),
   (178, 111), (179, 111), (180, 111), (181, 111), (182, 111),
   (153, 85), (154, 85), (155, 85), (156, 85),
   (185, 117), (186, 117), (187, 117), (188, 117),
   (157, 89), (189, 121), (135, 67), (167, 99), (145, 78), (177, 110)]

/-- Fold of the second byte of a two-byte accent-map key. -/
def accentFold (b : Nat) : Option Nat :=
  assoc_find b accentPairs

/-- map::find of the accent map on a chunk of bytes: only two-byte chunks
whose first byte is 195 can be keys. -/
def accentLookup : List Nat → Option Nat
  | [a, b] => if a = 195 then accentFold b else none
  | _ => none

/-- One chunk of the strip_accents loop body: replaced by its ASCII fold
when the chunk is in the accent map, emitted unchanged otherwise. -/
def foldChunk (chunk : List Nat) : List Nat :=
  match accentLookup chunk with
  | some a => [a]
  | none => chunk

/--
strip_accents from bert.cpp lines 241-272: walk the input one chunk at a
time, the chunk being substr(i, utf8_len) (truncated at the end of the
string), and fold accented Latin-1 letters to ASCII.  The patterns
realize the advance i += len for len = 1, 2, 3, 4; when fewer than len
bytes remain the truncated chunk is looked up and the loop then ends.
-/
def strip_accents : List Nat → List Nat
  | [] => []
  | [c] =>
    if utf8_len c = 1 then foldChunk [c] ++ strip_accents []
    else foldChunk [c]
  | [c, r1] =>
    if utf8_len c = 1 then foldChunk [c] ++ strip_accents [r1]
    else if utf8_len c = 2 then foldChunk [c, r1] ++ strip_accents []
    else foldChunk [c, r1]
  | [c, r1, r2] =>
    if utf8_len c = 1 then foldChunk [c] ++ strip_accents [r1, r2]
    else if utf8_len c = 2 then foldChunk [c, r1] ++ strip_accents [r2]
    else if utf8_len c = 3 then foldChunk [c, r1, r2] ++ strip_accents []
    else foldChunk [c, r1, r2]
  | c :: r1 :: r2 :: r3 :: rest3 =>
    if utf8_len c = 1 then foldChunk [c] ++ strip_accents (r1 :: r2 :: r3 :: rest3)
    else if utf8_len c = 2 then foldChunk [c, r1] ++ strip_accents (r2 :: r3 :: rest3)
    else if utf8_len c = 3 then foldChunk [c, r1, r2] ++ strip_accents (r3 :: rest3)
    else foldChunk [c, r1, r2, r3] ++ strip_accents rest3

/--
The case-folding loop of bert_normalize_prompt (bert.cpp lines 278-283):
at each walk position the byte is lowered when it is an ASCII capital, and
the cursor advances by utf8_len of the (possibly modified) byte; bytes
inside a multi-byte chunk are untouched.
-/
def lower_walk : List Nat → List Nat
  | [] => []
  | [c] =>
    let c2 := if 65 ≤ c ∧ c ≤ 90 then c + 32 else c
    if utf8_len c2 = 1 then c2 :: lower_walk [] else [c2]
  | [c, r1] =>
    let c2 := if 65 ≤ c ∧ c ≤ 90 then c + 32 else c
    if utf8_len c2 = 1 then c2 :: lower_walk [r1]
    else if utf8_len c2 = 2 then c2 :: r1 :: lower_walk []
    else [c2, r1]
  | [c, r1, r2] =>
    let c2 := if 65 ≤ c ∧ c ≤ 90 then c + 32 else c
    if utf8_len c2 = 1 then c2 :: lower_walk [r1, r2]
    else if utf8_len c2 = 2 then c2 :: r1 :: lower_walk [r2]
    else if utf8_len c2 = 3 then c2 :: r1 :: r2 :: lower_walk []
    else [c2, r1, r2]
  | c :: r1 :: r2 :: r3 :: rest3 =>
    let c2 := if 65 ≤ c ∧ c ≤ 90 then c + 32 else c
    if utf8_len c2 = 1 then c2 :: lower_walk (r1 :: r2 :: r3 :: rest3)
    else if utf8_len c2 = 2 then c2 :: r1 :: lower_walk (r2 :: r3 :: rest3)
    else if utf8_len c2 = 3 then c2 :: r1 :: r2 :: lower_walk (r3 :: rest3)
    else c2 :: r1 :: r2 :: r3 :: lower_walk rest3

/-- bert_normalize_prompt (bert.cpp lines 274-285): accent stripping
followed by the ASCII lowercasing walk. -/
def bert_normalize_prompt (text : List Nat) : List Nat :=
  lower_walk (strip_accents text)

/-!  ## Pre-split (src/bert.cpp, is_chinese_char and the first loop of
bert_tokenize, lines 287-363)  -/

/-- C-locale ispunct: printable, non-alphanumeric, non-space ASCII. -/
def ispunct (c : Nat) : Bool :=
  (33 ≤ c && c ≤ 47) || (58 ≤ c && c ≤ 64) || (91 ≤ c && c ≤ 96) || (123 ≤ c && c ≤ 126)

/-- C-locale isspace: space, tab, newline, vertical tab, form feed, CR. -/
def isspace (c : Nat) : Bool :=
  c == 32 || (9 ≤ c && c ≤ 13)

/-- The ten CJK ranges of is_chinese_char (bert.cpp lines 316-325),
including the upstream quirk range 0x2B920..0x2CEAF. -/
def cjk_ranges (cp : Nat) : Bool :=
  (0x4E00 ≤ cp && cp ≤ 0x9FFF) ||
  (0x3400 ≤ cp && cp ≤ 0x4DBF) ||
  (0x20000 ≤ cp && cp ≤ 0x2A6DF) ||
  (0x2A700 ≤ cp && cp ≤ 0x2B73F) ||
  (0x2B740 ≤ cp && cp ≤ 0x2B81F) ||
  (0x2B920 ≤ cp && cp ≤ 0x2CEAF) ||
  (0xF900 ≤ cp && cp ≤ 0xFAFF) ||
  (0x2F800 ≤ cp && cp ≤ 0x2FA1F) ||
  (0x3000 ≤ cp && cp ≤ 0x303F) ||
  (0xFF00 ≤ cp && cp ≤ 0xFFEF)

/-- The trailing-byte loop of is_chinese_char: each byte must be a
continuation byte (high two bits 10) and contributes its low six bits. -/
def cjk_trail (cp : Nat) : List Nat → Option Nat
  | [] => some cp
  | b :: rest => if b / 64 ≠ 2 then none else cjk_trail (cp * 64 + b % 64) rest

/--
is_chinese_char from bert.cpp lines 287-329: decode the leading byte to a
partial codepoint and an expected byte count, consume that many trailing
continuation bytes (an incomplete or invalid sequence yields false), and
test the decoded scalar against the CJK ranges.  An unrecognized leading
byte gives codepoint 0 and num_bytes 0, so the range test fails.
-/
def is_chinese_char (str : List Nat) : Bool :=
  let ch := str.getD 0 0
  let pr : Nat × Nat :=
    if ch ≤ 0x7f then (ch, 1)
    else if ch / 32 = 0x06 then (ch % 32, 2)
    else if ch / 16 = 0x0e then (ch % 16, 3)
    else if ch / 8 = 0x1e then (ch % 8, 4)
    else (0, 0)
  if str.length < pr.2 then false
  else
    match cjk_trail pr.1 ((str.drop 1).take (pr.2 - 1)) with
    | none => false
    | some cp => cjk_ranges cp

/--
The pre-split loop of bert_tokenize (bert.cpp lines 342-363): a single
space is written before and after every 1-byte punctuation codepoint and
every 3-byte chunk that is_chinese_char accepts; in every other case one
byte is copied and the cursor advances by one byte.  When utf8_len is 3
but fewer than 3 bytes remain, is_chinese_char rejects the truncated
substring, so the byte is copied (the final match arm).
-/
def bert_presplit : List Nat → List Nat
  | [] => []
  | [c] =>
    if utf8_len c = 1 ∧ ispunct c then 32 :: c :: 32 :: bert_presplit []
    else c :: bert_presplit []
  | [c, r1] =>
    if utf8_len c = 1 ∧ ispunct c then 32 :: c :: 32 :: bert_presplit [r1]
    else if utf8_len c = 3 ∧ is_chinese_char [c, r1] then
      32 :: c :: r1 :: 32 :: bert_presplit []
    else c :: bert_presplit [r1]
  | c :: r1 :: r2 :: rest2 =>
    if utf8_len c = 1 ∧ ispunct c then 32 :: c :: 32 :: bert_presplit (r1 :: r2 :: rest2)
    else if utf8_len c = 3 ∧ is_chinese_char [c, r1, r2] then
      32 :: c :: r1 :: r2 :: 32 :: bert_presplit rest2
    else c :: bert_presplit (r1 :: r2 :: rest2)

/--
Modelled from the spec (section 4.2 Stage A): the pre-split described as a
walk over whole codepoints.  Spaces are inserted around 1-byte punctuation
codepoints and 3-byte CJK codepoints; every other codepoint (1, 2, 3 or 4
bytes, or a truncated trailing chunk) is copied verbatim and skipped as a
unit.  This is the comparison twin for the refinement claim about the
pre-split; bert_presplit above is the embedding of the source.
-/
def presplit_spec : List Nat → List Nat
  | [] => []
  | [c] =>
    if utf8_len c = 1 then
      if ispunct c then 32 :: c :: 32 :: presplit_spec [] else c :: presplit_spec []
    else [c]
  | [c, r1] =>
    if utf8_len c = 1 then
      if ispunct c then 32 :: c :: 32 :: presplit_spec [r1] else c :: presplit_spec [r1]
    else if utf8_len c = 2 then c :: r1 :: presplit_spec []
    else [c, r1]
  | [c, r1, r2] =>
    if utf8_len c = 1 then
      if ispunct c then 32 :: c :: 32 :: presplit_spec [r1, r2] else c :: presplit_spec [r1, r2]
    else if utf8_len c = 2 then c :: r1 :: presplit_spec [r2]
    else if utf8_len c = 3 then
      if is_chinese_char [c, r1, r2] then 32 :: c :: r1 :: r2 :: 32 :: presplit_spec []
      else c :: r1 :: r2 :: presplit_spec []
    else [c, r1, r2]
  | c :: r1 :: r2 :: r3 :: rest3 =>
    if utf8_len c = 1 then
      if ispunct c then 32 :: c :: 32 :: presplit_spec (r1 :: r2 :: r3 :: rest3)
      else c :: presplit_spec (r1 :: r2 :: r3 :: rest3)
    else if utf8_len c = 2 then c :: r1 :: presplit_spec (r2 :: r3 :: rest3)
    else if utf8_len c = 3 then
      if is_chinese_char [c, r1, r2] then 32 :: c :: r1 :: r2 :: 32 :: presplit_spec (r3 :: rest3)
      else c :: r1 :: r2 :: presplit_spec (r3 :: rest3)
    else c :: r1 :: r2 :: r3 :: presplit_spec rest3

/-- A continuation byte: high two bits are 10. -/
def utf8_cont (b : Nat) : Prop := 128 ≤ b ∧ b ≤ 191

/-- Well-formed UTF-8 byte strings: a sequence of 1-, 2-, 3- and 4-byte
codepoints with correct leading-byte ranges and continuation bytes. -/
inductive ValidUTF8 : List Nat → Prop
  | nil : ValidUTF8 []
  | one {c rest} : c ≤ 127 → ValidUTF8 rest → ValidUTF8 (c :: rest)
  | two {c r1 rest} : 192 ≤ c → c ≤ 223 → utf8_cont r1 →
      ValidUTF8 rest → ValidUTF8 (c :: r1 :: rest)
  | three {c r1 r2 rest} : 224 ≤ c → c ≤ 239 → utf8_cont r1 → utf8_cont r2 →
      ValidUTF8 rest → ValidUTF8 (c :: r1 :: r2 :: rest)
  | four {c r1 r2 r3 rest} : 240 ≤ c → c ≤ 247 → utf8_cont r1 → utf8_cont r2 →
      utf8_cont r3 → ValidUTF8 rest → ValidUTF8 (c :: r1 :: r2 :: r3 :: rest)

/-!  ## Whitespace split (src/bert.cpp lines 365-381)  -/

/-- The l/r two-cursor loop of bert_tokenize collecting maximal runs of
non-whitespace bytes; cur is the run in progress s[l..r). -/
def splitWordsAux : List Nat → List Nat → List (List Nat)
  | [], cur => if cur = [] then [] else [cur]
  | c :: rest, cur =>
    if isspace c then
      if cur = [] then splitWordsAux rest []
      else cur :: splitWordsAux rest []
    else
      splitWordsAux rest (cur ++ [c])

/-- The word list produced by the whitespace split; empty segments are
never emitted (words are pushed only when r is strictly beyond l). -/
def splitWords (s : List Nat) : List (List Nat) :=
  splitWordsAux s []

/-- The word list the tokenizer scans: pre-split of the normalized text,
split on whitespace. -/
def wordsOf (text : List Nat) : List (List Nat) :=
  splitWords (bert_presplit (bert_normalize_prompt text))

/-!  ## Vocabulary (src/bert.cpp, bert_vocab, lines 127-133, and the vocab
loading loop of bert_load_from_file, lines 514-532)

std::map is modelled as a function from keys to Option values; operator[]
assignment is pointwise function update (overwriting), and count(w) == 0
is "the map yields none at w".  -/

/-- Pointwise update of a string-keyed map (std::map operator[] = v). -/
def vmap_write (f : List Nat → Option Nat) (k : List Nat) (v : Nat) :
    List Nat → Option Nat :=
  fun k2 => if k2 = k then some v else f k2

/-- Pointwise update of an id-keyed map. -/
def nmap_write (f : Nat → Option (List Nat)) (k : Nat) (v : List Nat) :
    Nat → Option (List Nat) :=
  fun k2 => if k2 = k then some v else f k2

/-- bert_vocab (bert.cpp lines 127-133): whole-word and subword maps plus
the inverse maps kept for diagnostics. -/
structure bert_vocab where
  token_to_id : List Nat → Option Nat
  subword_token_to_id : List Nat → Option Nat
  id_to_token : Nat → Option (List Nat)
  id_to_subword_token : Nat → Option (List Nat)

/-- The empty vocabulary (the freshly constructed maps of a new bert_ctx). -/
def empty_vocab : bert_vocab :=
  { token_to_id := fun _ => none
    subword_token_to_id := fun _ => none
    id_to_token := fun _ => none
    id_to_subword_token := fun _ => none }

/--
The body of the vocab loading loop (bert.cpp lines 519-531) for entry i
with surface word.  Note the two ifs are independent: a word beginning
with two hash bytes (35) is written into the subword map under its
stripped surface AND, when the full surface is not yet present, into the
whole-word map as well.  word[0] and word[1] are operator[] reads that
yield byte 0 at the end of the string, modelled by getD with default 0.
-/
def load_vocab_entry (v : bert_vocab) (i : Nat) (word : List Nat) : bert_vocab :=
  let v1 :=
    if word.getD 0 0 = 35 ∧ word.getD 1 0 = 35 then
      { v with
        subword_token_to_id := vmap_write v.subword_token_to_id (word.drop 2) i
        id_to_subword_token := nmap_write v.id_to_subword_token i word }
    else v
  if v1.token_to_id word = none then
    { v1 with
      token_to_id := vmap_write v1.token_to_id word i
      id_to_token := nmap_write v1.id_to_token i word }
  else v1

/-- The vocab loading loop, processing entries with increasing ids from i. -/
def bert_load_vocab_from (i : Nat) : List (List Nat) → bert_vocab → bert_vocab
  | [], v => v
  | w :: ws, v => bert_load_vocab_from (i + 1) ws (load_vocab_entry v i w)

/-- The vocab loading section of bert_load_from_file (lines 514-532):
fold the token list, in order, into the two maps starting from id 0. -/
def bert_load_vocab (tokens : List (List Nat)) : bert_vocab :=
  bert_load_vocab_from 0 tokens empty_vocab

/-- The id of the last token of the form hash-hash-u in the list, counting
from base index i; none when no such token exists.  Because the loader
writes the subword map with overwriting operator[] assignment, the last
occurrence wins.  Used to state the corrected form of the loader claim. -/
def last_hh_from (i : Nat) (u : List Nat) : List (List Nat) → Option Nat
  | [] => none
  | w :: ws =>
    match last_hh_from (i + 1) u ws with
    | some j => some j
    | none =>
      if w.getD 0 0 = 35 ∧ w.getD 1 0 = 35 ∧ w.drop 2 = u then some i else none

/-!  ## WordPiece tokenization (src/bert.cpp, bert_tokenize, lines 331-435)  -/

/-- An active token map (a pointer to one of the two vocab maps). -/
def TokenMap : Type := List Nat → Option Nat

/--
The inner j-loop of the greedy WordPiece scan (bert.cpp lines 405-416):
try j = n, n-1, ... while j > i, looking up word.substr(i, j-i) in the
active map; the first (longest) hit returns the end position j and the id.
-/
def findFrom (m : TokenMap) (w : List Nat) (i : Nat) : Nat → Option (Nat × Nat)
  | 0 => none
  | j + 1 =>
    if j + 1 ≤ i then none
    else
      match m ((w.drop i).take (j + 1 - i)) with
      | some id => some (j + 1, id)
      | none => findFrom m w i j

/--
The labeled-goto loop of bert_tokenize (lines 398-422) as a fuel-indexed
scan.  State: cursor i, running token count t, active map m.  The loop
exits when i reaches the word length or when t >= n_max_tokens - 1 (the
slot reserved for SEP); a hit pushes the id, moves i to j and switches
the active map to the subword map; a miss advances i by one byte and
switches the active map to the subword map.  Returns the ids pushed for
this word and the final count.  Fuel w.length + 1 is always sufficient
because every continuing step strictly advances i (claim C10).
-/
def scanWordF (subm : TokenMap) (w : List Nat) (nmax : Nat) :
    Nat → Nat → Nat → TokenMap → List Nat × Nat
  | 0, _, t, _ => ([], t)
  | fuel + 1, i, t, m =>
    if i < w.length then
      if nmax - 1 ≤ t then ([], t)
      else
        match findFrom m w i w.length with
        | some ji =>
          let r := scanWordF subm w nmax fuel ji.1 (t + 1) subm
          (ji.2 :: r.1, r.2)
        | none => scanWordF subm w nmax fuel (i + 1) t subm
    else ([], t)

/-- Per-word tokenization (lines 396-428): run the scan from cursor 0 with
the whole-word map active; if the count did not move (prev_t == t), push a
single UNK id 100. -/
def tokenizeWord (whole subm : TokenMap) (w : List Nat) (nmax t : Nat) :
    List Nat × Nat :=
  if (scanWordF subm w nmax (w.length + 1) 0 t whole).2 = t then
    ((scanWordF subm w nmax (w.length + 1) 0 t whole).1 ++ [100],
      (scanWordF subm w nmax (w.length + 1) 0 t whole).2 + 1)
  else scanWordF subm w nmax (w.length + 1) 0 t whole

/-- The word loop of bert_tokenize (lines 391-429): words of size 0 are
skipped; tokens accumulate in order. -/
def tokenizeWords (whole subm : TokenMap) (nmax : Nat) :
    List (List Nat) → List Nat → Nat → List Nat × Nat
  | [], acc, t => (acc, t)
  | w :: ws, acc, t =>
    if w.length = 0 then tokenizeWords whole subm nmax ws acc t
    else
      tokenizeWords whole subm nmax ws
        (acc ++ (tokenizeWord whole subm w nmax t).1)
        (tokenizeWord whole subm w nmax t).2

/--
bert_tokenize (bert.cpp lines 331-435): normalize, pre-split, whitespace
split, then the greedy WordPiece loop starting from [CLS] (id 101, count
1), and finally append SEP (id 102).  n_max_tokens is the int32 cap; it is
modelled as a Nat, which agrees with the C semantics of t >= n_max - 1
for every non-negative cap.
-/
def bert_tokenize (vocab : bert_vocab) (text : List Nat) (n_max_tokens : Nat) :
    List Nat :=
  (tokenizeWords vocab.token_to_id vocab.subword_token_to_id
    n_max_tokens (wordsOf text) [101] 1).1 ++ [102]

/-!  ## Hyperparameter loading (src/bert.cpp, bert_load_from_file,
lines 494-512) and the derived head dimension (line 724)

The gguf key/value metadata is modelled as two partial maps over an
enumeration of the keys the loader reads; get_u32 / get_f32 throw (here:
return an error naming the key) when the key is missing, exactly as
get_key_idx does.  f32 values are modelled as rationals.  -/

/-- The metadata keys read by the hparams section of bert_load_from_file. -/
inductive GgufKey where
  | vocab_size
  | max_position_embedding
  | hidden_size
  | intermediate_size
  | num_attention_heads
  | num_hidden_layers
  | layer_norm_eps
deriving DecidableEq

/-- bert_hparams (bert.cpp lines 90-98).  The int32 fields are modelled as
Nat (they come from gguf u32 values); the f32 epsilon as a rational. -/
structure bert_hparams where
  n_vocab : Nat
  n_max_tokens : Nat
  n_embd : Nat
  n_intermediate : Nat
  n_head : Nat
  n_layer : Nat
  layer_norm_eps : ℚ
deriving DecidableEq

/-- get_u32 (bert.cpp line 47): key lookup that throws on a missing key. -/
def bert_get_u32 (kv : GgufKey → Option Nat) (key : GgufKey) : Except GgufKey Nat :=
  match kv key with
  | some v => Except.ok v
  | none => Except.error key

/-- get_f32 (bert.cpp line 53): as bert_get_u32 but for f32 values. -/
def bert_get_f32 (kvf : GgufKey → Option ℚ) (key : GgufKey) : Except GgufKey ℚ :=
  match kvf key with
  | some v => Except.ok v
  | none => Except.error key

/--
The hparams block of bert_load_from_file (lines 494-512): read the seven
keys in source order; any missing key aborts the load.  No divisibility
or shape check is performed on the values.
-/
def bert_load_hparams (kv : GgufKey → Option Nat) (kvf : GgufKey → Option ℚ) :
    Except GgufKey bert_hparams := do
  let n_vocab ← bert_get_u32 kv GgufKey.vocab_size
  let n_max_tokens ← bert_get_u32 kv GgufKey.max_position_embedding
  let n_embd ← bert_get_u32 kv GgufKey.hidden_size
  let n_intermediate ← bert_get_u32 kv GgufKey.intermediate_size
  let n_head ← bert_get_u32 kv GgufKey.num_attention_heads
  let n_layer ← bert_get_u32 kv GgufKey.num_hidden_layers
  let layer_norm_eps ← bert_get_f32 kvf GgufKey.layer_norm_eps
  pure { n_vocab := n_vocab, n_max_tokens := n_max_tokens, n_embd := n_embd
         n_intermediate := n_intermediate, n_head := n_head, n_layer := n_layer
         layer_norm_eps := layer_norm_eps }

/-- d_head (bert.cpp line 724): integer division n_embd / n_head, silently
truncating when n_head does not divide n_embd. -/
def d_head (hp : bert_hparams) : Nat :=
  hp.n_embd / hp.n_head

/-!  ## Graph builder inputs (src/bert.cpp, bert_build_graph,
lines 705-795) and the executor (bert_forward_batch, lines 906-937)

Batches are lists of int32 token rows.  The four host-written input
arrays (token ids, padding mask, mean-pool weights, positions) are
modelled as flat memories Nat → value written by the same double loop as
the source, starting from an arbitrary initial memory (malloc does not
clear).  f32 cells are rationals.  -/

/-- The cur_max_len loop (bert.cpp lines 711-716). -/
def cur_max_len (batch : List (List Int)) : Nat :=
  batch.foldl (fun m row => if row.length > m then row.length else m) 0

/-- One memory cell update (a store into a malloc-backed array). -/
def mem_write {α : Type} (f : Nat → α) (k : Nat) (v : α) : Nat → α :=
  fun j => if j = k then v else f j

/-- The four input arrays filled by bert_build_graph before execution. -/
structure GraphInputs where
  token_layer_data : Nat → Int
  pad_mask_data : Nat → ℚ
  sum_data : Nat → ℚ
  pos_data : Nat → Int

/--
The body of the input-filling double loop (bert.cpp lines 760-774) for
batch row ba and position i: valid positions receive the token id, mask
1.0 and weight 1/cur_len; padding positions receive CLS id 101, mask 0.0
and weight 0.0; the position array receives i in both cases.
-/
def write_cell (batch : List (List Int)) (ba i : Nat) (g : GraphInputs) :
    GraphInputs :=
  let L := cur_max_len batch
  let row := batch.getD ba []
  let cur_len := row.length
  let g1 :=
    if i < cur_len then
      { g with
        token_layer_data := mem_write g.token_layer_data (ba * L + i) (row.getD i 0)
        pad_mask_data := mem_write g.pad_mask_data (ba * L + i) 1
        sum_data := mem_write g.sum_data (ba * L + i) (1 / (cur_len : ℚ)) }
    else
      { g with
        token_layer_data := mem_write g.token_layer_data (ba * L + i) 101
        pad_mask_data := mem_write g.pad_mask_data (ba * L + i) 0
        sum_data := mem_write g.sum_data (ba * L + i) 0 }
  { g1 with pos_data := mem_write g1.pos_data (ba * L + i) (i : Int) }

/-- The inner position loop (lines 761-774) for one batch row. -/
def fill_row (batch : List (List Int)) (ba : Nat) (g : GraphInputs) : GraphInputs :=
  (List.range (cur_max_len batch)).foldl (fun g2 i => write_cell batch ba i g2) g

/-- The input-filling double loop (lines 760-774), run outside measure
mode, starting from the arbitrary malloc contents g0. -/
def fill_inputs (batch : List (List Int)) (g0 : GraphInputs) : GraphInputs :=
  (List.range batch.length).foldl (fun g ba => fill_row batch ba g) g0

/--
The attention mask entry for batch row b at query position i and key
position j (bert.cpp lines 788-791): ggml_mul_mat of the [1, L, 1, B]
padding mask with itself contracts the singleton leading dimension, so
entry (i, j) is the product of the two mask values; then add1 with -1.0
and scale by 1e5.
-/
def attn_mask_val (batch : List (List Int)) (g0 : GraphInputs) (b i j : Nat) : ℚ :=
  ((fill_inputs batch g0).pad_mask_data (b * cur_max_len batch + i) *
     (fill_inputs batch g0).pad_mask_data (b * cur_max_len batch + j) - 1) * 100000

/--
bert_build_graph (bert.cpp lines 705-904), restricted to its decidable
data contract: the token-overflow check of lines 727-730 returns a null
graph (none) when the padded length exceeds n_max_tokens, otherwise the
graph carries the filled input tensors.  The floating-point tensor
network built on top of these inputs is outside this embedding.
-/
def bert_build_graph (hp : bert_hparams) (batch : List (List Int))
    (g0 : GraphInputs) : Option GraphInputs :=
  if cur_max_len batch > hp.n_max_tokens then none
  else some (fill_inputs batch g0)

/-- The observable outcome of one bert_forward_batch call. -/
inductive forward_result where
  | crash_null_graph : forward_result
  | ok : GraphInputs → forward_result

/--
bert_forward_batch (bert.cpp lines 906-937): builds the graph and then,
with no null check, passes gf to ggml_allocr_alloc_graph (line 912),
ggml_backend_graph_compute (line 929) and dereferences gf->nodes at line
932.  When bert_build_graph returned the null graph this dereferences a
null pointer; the crash is the modelled outcome.
-/
def bert_forward_batch (hp : bert_hparams) (batch : List (List Int))
    (g0 : GraphInputs) : forward_result :=
  match bert_build_graph hp batch g0 with
  | none => forward_result.crash_null_graph
  | some g => forward_result.ok g

/-!  ## Concrete instances used by witnesses and counterexamples  -/

/-- A metadata store whose hidden_size (10) is not divisible by its head
count (3); every key the loader reads is present. -/
def kvC4 : GgufKey → Option Nat := fun k =>
  match k with
  | GgufKey.vocab_size => some 30522
  | GgufKey.max_position_embedding => some 512
  | GgufKey.hidden_size => some 10
  | GgufKey.intermediate_size => some 40
  | GgufKey.num_attention_heads => some 3
  | GgufKey.num_hidden_layers => some 2
  | GgufKey.layer_norm_eps => none

/-- The f32 metadata accompanying kvC4. -/
def kvfC4 : GgufKey → Option ℚ := fun k =>
  match k with
  | GgufKey.layer_norm_eps => some (1 / 1000000000000)
  | _ => none

/-- The hyperparameters bert_load_from_file builds from kvC4 / kvfC4. -/
def hpC4 : bert_hparams :=
  { n_vocab := 30522, n_max_tokens := 512, n_embd := 10, n_intermediate := 40
    n_head := 3, n_layer := 2, layer_norm_eps := 1 / 1000000000000 }

/-- Hyperparameters with a small position limit, for the overflow claim. -/
def hpC7 : bert_hparams :=
  { n_vocab := 30522, n_max_tokens := 2, n_embd := 10, n_intermediate := 40
    n_head := 2, n_layer := 2, layer_norm_eps := 1 / 1000000000000 }

/-- A batch whose single row is longer than hpC7.n_max_tokens. -/
def batchC7 : List (List Int) := [[101, 5, 102]]

/-- A small two-row batch (lengths 2 and 1) for the input-fill witnesses. -/
def batchW : List (List Int) := [[5, 6], [7]]

/-- Zeroed initial memory standing in for the malloc contents. -/
def g0W : GraphInputs :=
  { token_layer_data := fun _ => 0, pad_mask_data := fun _ => 0
    sum_data := fun _ => 0, pos_data := fun _ => 0 }

/-- A valid UTF-8 string: h, comma, then the 3-byte CJK codepoint U+4F60. -/
def sC9 : List Nat := [104, 44, 228, 189, 160]

/-- A one-byte word used by the scan-step witnesses. -/
def wW : List Nat := [97]

/-!  ## Helper lemmas: utf8_len and the accent map  -/

lemma utf8_len_eq_one {c : Nat} (h : c < 192 ∨ 256 ≤ c) : utf8_len c = 1 := by
  unfold utf8_len
  rcases h with h | h
  · have h2 : c / 16 = 0 ∨ c / 16 = 1 ∨ c / 16 = 2 ∨ c / 16 = 3 ∨ c / 16 = 4 ∨
      c / 16 = 5 ∨ c / 16 = 6 ∨ c / 16 = 7 ∨ c / 16 = 8 ∨ c / 16 = 9 ∨
      c / 16 = 10 ∨ c / 16 = 11 := by omega
    rcases h2 with h2 | h2 | h2 | h2 | h2 | h2 | h2 | h2 | h2 | h2 | h2 | h2 <;>
      simp [h2]
  · have h2 : 16 ≤ c / 16 := by omega
    rw [List.getD_eq_default]
    simpa using h2

lemma utf8_len_eq_two {c : Nat} (h1 : 192 ≤ c) (h2 : c < 224) : utf8_len c = 2 := by
  unfold utf8_len
  have h3 : c / 16 = 12 ∨ c / 16 = 13 := by omega
  rcases h3 with h3 | h3 <;> simp [h3]

lemma utf8_len_eq_three {c : Nat} (h1 : 224 ≤ c) (h2 : c < 240) : utf8_len c = 3 := by
  unfold utf8_len
  have h3 : c / 16 = 14 := by omega
  simp [h3]

lemma utf8_len_eq_four {c : Nat} (h1 : 240 ≤ c) (h2 : c < 256) : utf8_len c = 4 := by
  unfold utf8_len
  have h3 : c / 16 = 15 := by omega
  simp [h3]

lemma of_utf8_len_two {c : Nat} (h : utf8_len c = 2) : 192 ≤ c ∧ c < 224 := by
  by_contra hc
  rcases Nat.lt_or_ge c 192 with h1 | h1
  · rw [utf8_len_eq_one (Or.inl h1)] at h; omega
  rcases Nat.lt_or_ge c 224 with h2 | h2
  · exact hc ⟨h1, h2⟩
  rcases Nat.lt_or_ge c 240 with h3 | h3
  · rw [utf8_len_eq_three h2 h3] at h; omega
  rcases Nat.lt_or_ge c 256 with h4 | h4
  · rw [utf8_len_eq_four h3 h4] at h; omega
  · rw [utf8_len_eq_one (Or.inr h4)] at h; omega

lemma of_utf8_len_three {c : Nat} (h : utf8_len c = 3) : 224 ≤ c ∧ c < 240 := by
  by_contra hc
  rcases Nat.lt_or_ge c 192 with h1 | h1
  · rw [utf8_len_eq_one (Or.inl h1)] at h; omega
  rcases Nat.lt_or_ge c 224 with h2 | h2
  · rw [utf8_len_eq_two h1 h2] at h; omega
  rcases Nat.lt_or_ge c 240 with h3 | h3
  · exact hc ⟨h2, h3⟩
  rcases Nat.lt_or_ge c 256 with h4 | h4
  · rw [utf8_len_eq_four h3 h4] at h; omega
  · rw [utf8_len_eq_one (Or.inr h4)] at h; omega

lemma of_utf8_len_not123 {c : Nat} (h1 : utf8_len c ≠ 1) (h2 : utf8_len c ≠ 2)
    (h3 : utf8_len c ≠ 3) : 240 ≤ c ∧ c < 256 := by
  by_contra hc
  rcases Nat.lt_or_ge c 192 with g1 | g1
  · exact h1 (utf8_len_eq_one (Or.inl g1))
  rcases Nat.lt_or_ge c 224 with g2 | g2
  · exact h2 (utf8_len_eq_two g1 g2)
  rcases Nat.lt_or_ge c 240 with g3 | g3
  · exact h3 (utf8_len_eq_three g2 g3)
  rcases Nat.lt_or_ge c 256 with g4 | g4
  · exact hc ⟨g3, g4⟩
  · exact h1 (utf8_len_eq_one (Or.inr g4))

lemma of_utf8_len_not1 {c : Nat} (h1 : utf8_len c ≠ 1) : 192 ≤ c ∧ c < 256 := by
  by_contra hc
  rcases Nat.lt_or_ge c 192 with g1 | g1
  · exact h1 (utf8_len_eq_one (Or.inl g1))
  rcases Nat.lt_or_ge c 256 with g4 | g4
  · exact hc ⟨g1, g4⟩
  · exact h1 (utf8_len_eq_one (Or.inr g4))

lemma accentLookup_nil : accentLookup [] = none := rfl

lemma accentLookup_one (c : Nat) : accentLookup [c] = none := rfl

lemma accentLookup_three (a b c : Nat) : accentLookup [a, b, c] = none := rfl

lemma accentLookup_four (a b c d : Nat) : accentLookup [a, b, c, d] = none := rfl

lemma accentLookup_ne195 {a : Nat} (b : Nat) (h : a ≠ 195) :
    accentLookup [a, b] = none := by
  simp [accentLookup, h]

lemma assoc_find_some {b a : Nat} :
    ∀ {ps : List (Nat × Nat)}, assoc_find b ps = some a → (b, a) ∈ ps := by
  intro ps
  induction ps with
  | nil => intro h; exact Option.noConfusion h
  | cons p ps ih =>
    intro h
    simp only [assoc_find] at h
    split_ifs at h with h1
    · injection h with h2
      simp [h1, h2.symm]
    · simp [ih h]

lemma accentFold_some {b a : Nat} (h : accentFold b = some a) :
    65 ≤ a ∧ a ≤ 121 := by
  have hmem := assoc_find_some h
  have hall : ∀ p ∈ accentPairs, 65 ≤ p.2 ∧ p.2 ≤ 121 := by decide
  exact hall (b, a) hmem

lemma foldChunk_one (c : Nat) : foldChunk [c] = [c] := by
  simp [foldChunk, accentLookup_one]

lemma foldChunk_three (a b c : Nat) : foldChunk [a, b, c] = [a, b, c] := by
  simp [foldChunk, accentLookup_three]

lemma foldChunk_four (a b c d : Nat) : foldChunk [a, b, c, d] = [a, b, c, d] := by
  simp [foldChunk, accentLookup_four]

lemma foldChunk_ne195 {a : Nat} (b : Nat) (h : a ≠ 195) :
    foldChunk [a, b] = [a, b] := by
  simp [foldChunk, accentLookup_ne195 b h]

/-!  ## Helper lemmas: the WordPiece scan  -/

lemma findFrom_some {m : TokenMap} {w : List Nat} {i j j2 id : Nat}
    (h : findFrom m w i j = some (j2, id)) : i < j2 ∧ j2 ≤ j := by
  induction j with
  | zero => simp [findFrom] at h
  | succ j ih =>
    simp only [findFrom] at h
    by_cases h1 : j + 1 ≤ i
    · rw [if_pos h1] at h
      exact Option.noConfusion h
    · rw [if_neg h1] at h
      rcases hm : m ((w.drop i).take (j + 1 - i)) with _ | id2 <;> rw [hm] at h
      · have h2 := ih h
        omega
      · simp only [Option.some.injEq, Prod.mk.injEq] at h
        omega

lemma scan_snd_eq (subm : TokenMap) (w : List Nat) (nmax : Nat) :
    ∀ (f i t : Nat) (m : TokenMap),
      (scanWordF subm w nmax f i t m).2 =
        t + (scanWordF subm w nmax f i t m).1.length := by
  intro f
  induction f with
  | zero => intro i t m; simp [scanWordF]
  | succ f ih =>
    intro i t m
    simp only [scanWordF]
    split_ifs with h1 h2
    · simp
    · rcases hm : findFrom m w i w.length with _ | ji <;> simp only [hm]
      · exact ih (i + 1) t subm
      · have h3 := ih ji.1 (t + 1) subm
        simp only [List.length_cons]
        omega
    · simp

lemma scan_snd_le (subm : TokenMap) (w : List Nat) (nmax : Nat) :
    ∀ (f i t : Nat) (m : TokenMap),
      (scanWordF subm w nmax f i t m).2 ≤ max t (nmax - 1) := by
  intro f
  induction f with
  | zero => intro i t m; simp [scanWordF]
  | succ f ih =>
    intro i t m
    simp only [scanWordF]
    split_ifs with h1 h2
    · omega
    · rcases hm : findFrom m w i w.length with _ | ji <;> simp only [hm]
      · exact ih (i + 1) t subm
      · have h3 := ih ji.1 (t + 1) subm
        omega
    · omega

lemma tokenizeWord_snd_eq (whole subm : TokenMap) (w : List Nat) (nmax t : Nat) :
    (tokenizeWord whole subm w nmax t).2 =
      t + (tokenizeWord whole subm w nmax t).1.length := by
  unfold tokenizeWord
  have h1 := scan_snd_eq subm w nmax (w.length + 1) 0 t whole
  split_ifs with h2
  · simp only [List.length_append, List.length_cons, List.length_nil]
    omega
  · simpa using h1

lemma tokenizeWord_snd_le (whole subm : TokenMap) (w : List Nat) (nmax t : Nat) :
    (tokenizeWord whole subm w nmax t).2 ≤ max t (nmax - 1) + 1 := by
  unfold tokenizeWord
  have h1 := scan_snd_le subm w nmax (w.length + 1) 0 t whole
  split_ifs with h2 <;> omega

lemma tokenizeWords_fst_append (whole subm : TokenMap) (nmax : Nat) :
    ∀ (ws : List (List Nat)) (acc : List Nat) (t : Nat),
      ∃ tl, (tokenizeWords whole subm nmax ws acc t).1 = acc ++ tl := by
  intro ws
  induction ws with
  | nil => intro acc t; exact ⟨[], by simp [tokenizeWords]⟩
  | cons w ws ih =>
    intro acc t
    simp only [tokenizeWords]
    split_ifs with h1
    · exact ih acc t
    · rcases ih (acc ++ (tokenizeWord whole subm w nmax t).1)
        (tokenizeWord whole subm w nmax t).2 with ⟨tl, htl⟩
      exact ⟨(tokenizeWord whole subm w nmax t).1 ++ tl, by simp [htl]⟩

lemma tokenizeWords_snd_eq (whole subm : TokenMap) (nmax : Nat) :
    ∀ (ws : List (List Nat)) (acc : List Nat) (t : Nat),
      (tokenizeWords whole subm nmax ws acc t).1.length + t =
        (tokenizeWords whole subm nmax ws acc t).2 + acc.length := by
  intro ws
  induction ws with
  | nil => intro acc t; simp only [tokenizeWords]; omega
  | cons w ws ih =>
    intro acc t
    simp only [tokenizeWords]
    split_ifs with h1
    · exact ih acc t
    · have h2 := ih (acc ++ (tokenizeWord whole subm w nmax t).1)
        (tokenizeWord whole subm w nmax t).2
      have h3 := tokenizeWord_snd_eq whole subm w nmax t
      simp only [List.length_append] at h2
      omega

lemma tokenizeWords_snd_le (whole subm : TokenMap) (nmax : Nat) :
    ∀ (ws : List (List Nat)) (acc : List Nat) (t : Nat),
      (tokenizeWords whole subm nmax ws acc t).2 ≤ max t (nmax - 1) + ws.length := by
  intro ws
  induction ws with
  | nil => intro acc t; simp only [tokenizeWords]; omega
  | cons w ws ih =>
    intro acc t
    simp only [tokenizeWords]
    split_ifs with h1
    · have h2 := ih acc t
      simp only [List.length_cons]
      omega
    · have h2 := ih (acc ++ (tokenizeWord whole subm w nmax t).1)
        (tokenizeWord whole subm w nmax t).2
      have h3 := tokenizeWord_snd_le whole subm w nmax t
      simp only [List.length_cons]
      omega

/-!  ## Helper lemmas: vocabulary loading  -/

lemma load_vocab_entry_token (v : bert_vocab) (i : Nat) (word w : List Nat) :
    (load_vocab_entry v i word).token_to_id w =
      if v.token_to_id word = none ∧ w = word then some i
      else v.token_to_id w := by
  unfold load_vocab_entry vmap_write
  rcases hv : v.token_to_id word with _ | id <;> split_ifs <;> simp_all

lemma load_vocab_entry_sub (v : bert_vocab) (i : Nat) (word u : List Nat) :
    (load_vocab_entry v i word).subword_token_to_id u =
      if word.getD 0 0 = 35 ∧ word.getD 1 0 = 35 ∧ word.drop 2 = u then some i
      else v.subword_token_to_id u := by
  unfold load_vocab_entry vmap_write
  rcases hv : v.token_to_id word with _ | id <;> split_ifs <;> simp_all <;>
    (intro h4; simp_all)

lemma load_vocab_from_token (w : List Nat) :
    ∀ (ts : List (List Nat)) (k : Nat) (v : bert_vocab),
      (bert_load_vocab_from k ts v).token_to_id w =
        match v.token_to_id w with
        | some id => some id
        | none => (List.findIdx? (fun x => x == w) ts).map (fun j => k + j) := by
  intro ts
  induction ts with
  | nil =>
    intro k v
    rcases hv : v.token_to_id w with _ | id <;> simp [bert_load_vocab_from, hv]
  | cons word ts ih =>
    intro k v
    simp only [bert_load_vocab_from]
    rw [ih (k + 1) (load_vocab_entry v k word)]
    rw [load_vocab_entry_token]
    by_cases hw : w = word
    · subst hw
      rcases hv : v.token_to_id w with _ | id
      · simp [hv, List.findIdx?_cons]
      · simp [hv, List.findIdx?_cons]
    · have hbeq : (word == w) = false := by
        simp only [beq_eq_false_iff_ne, ne_eq]
        exact fun h2 => hw h2.symm
      rcases hv : v.token_to_id w with _ | id
      · simp [hv, hw, List.findIdx?_cons, hbeq]
        rcases hfi : List.findIdx? (fun x => x == w) ts with _ | j <;>
          simp [Option.map_map, Function.comp]
        omega
      · simp [hv, hw]

lemma load_vocab_from_sub (u : List Nat) :
    ∀ (ts : List (List Nat)) (k : Nat) (v : bert_vocab),
      (bert_load_vocab_from k ts v).subword_token_to_id u =
        match last_hh_from k u ts with
        | some j => some j
        | none => v.subword_token_to_id u := by
  intro ts
  induction ts with
  | nil =>
    intro k v
    simp [bert_load_vocab_from, last_hh_from]
  | cons word ts ih =>
    intro k v
    simp only [bert_load_vocab_from, last_hh_from]
    rw [ih (k + 1) (load_vocab_entry v k word)]
    rw [load_vocab_entry_sub]
    rcases hr : last_hh_from (k + 1) u ts with _ | j
    · simp only []
      split_ifs with hc <;> simp
    · simp only []

/-!  ## Helper lemmas: the input-filling loops  -/

lemma mem_write_eq {α : Type} (f : Nat → α) (k : Nat) (v : α) :
    mem_write f k v k = v := by
  simp [mem_write]

lemma mem_write_ne {α : Type} (f : Nat → α) {k j : Nat} (v : α) (h : j ≠ k) :
    mem_write f k v j = f j := by
  simp [mem_write, h]

lemma write_cell_at (batch : List (List Int)) (ba i : Nat) (g : GraphInputs) :
    (write_cell batch ba i g).token_layer_data (ba * cur_max_len batch + i) =
        (if i < (batch.getD ba []).length then (batch.getD ba []).getD i 0 else 101) ∧
      (write_cell batch ba i g).pad_mask_data (ba * cur_max_len batch + i) =
        (if i < (batch.getD ba []).length then 1 else 0) ∧
      (write_cell batch ba i g).sum_data (ba * cur_max_len batch + i) =
        (if i < (batch.getD ba []).length then 1 / (((batch.getD ba []).length : ℚ)) else 0) ∧
      (write_cell batch ba i g).pos_data (ba * cur_max_len batch + i) = (i : Int) := by
  by_cases h1 : i < (batch.getD ba []).length
  · unfold write_cell
    simp only [if_pos h1, mem_write]
    simp
  · unfold write_cell
    simp only [if_neg h1, mem_write]
    simp

lemma write_cell_ne (batch : List (List Int)) (ba i : Nat) (g : GraphInputs)
    {k : Nat} (h : k ≠ ba * cur_max_len batch + i) :
    (write_cell batch ba i g).token_layer_data k = g.token_layer_data k ∧
      (write_cell batch ba i g).pad_mask_data k = g.pad_mask_data k ∧
      (write_cell batch ba i g).sum_data k = g.sum_data k ∧
      (write_cell batch ba i g).pos_data k = g.pos_data k := by
  by_cases h1 : i < (batch.getD ba []).length
  · unfold write_cell
    simp only [if_pos h1, mem_write]
    simp [h]
  · unfold write_cell
    simp only [if_neg h1, mem_write]
    simp [h]

lemma fill_row_aux_ne (batch : List (List Int)) (ba : Nat) :
    ∀ (m : Nat) (g : GraphInputs) (k : Nat),
      (∀ i, i < m → k ≠ ba * cur_max_len batch + i) →
      (((List.range m).foldl (fun g2 i => write_cell batch ba i g2) g).token_layer_data k
          = g.token_layer_data k) ∧
        (((List.range m).foldl (fun g2 i => write_cell batch ba i g2) g).pad_mask_data k
          = g.pad_mask_data k) ∧
        (((List.range m).foldl (fun g2 i => write_cell batch ba i g2) g).sum_data k
          = g.sum_data k) ∧
        (((List.range m).foldl (fun g2 i => write_cell batch ba i g2) g).pos_data k
          = g.pos_data k) := by
  intro m
  induction m with
  | zero => intro g k h; simp
  | succ m ih =>
    intro g k h
    rw [List.range_succ, List.foldl_append]
    have h1 := write_cell_ne batch ba m
      ((List.range m).foldl (fun g2 i => write_cell batch ba i g2) g)
      (h m (Nat.lt_succ_self m))
    have h2 := ih g k (fun i hi => h i (Nat.lt_succ_of_lt hi))
    simp only [List.foldl_cons, List.foldl_nil]
    exact ⟨h1.1.trans h2.1, (h1.2.1).trans h2.2.1,
      (h1.2.2.1).trans h2.2.2.1, (h1.2.2.2).trans h2.2.2.2⟩

lemma fill_row_aux_at (batch : List (List Int)) (ba : Nat) :
    ∀ (m : Nat) (g : GraphInputs) (i : Nat), i < m →
      (((List.range m).foldl (fun g2 i2 => write_cell batch ba i2 g2) g).token_layer_data
          (ba * cur_max_len batch + i)
          = (if i < (batch.getD ba []).length then (batch.getD ba []).getD i 0 else 101)) ∧
        (((List.range m).foldl (fun g2 i2 => write_cell batch ba i2 g2) g).pad_mask_data
          (ba * cur_max_len batch + i)
          = (if i < (batch.getD ba []).length then 1 else 0)) ∧
        (((List.range m).foldl (fun g2 i2 => write_cell batch ba i2 g2) g).sum_data
          (ba * cur_max_len batch + i)
          = (if i < (batch.getD ba []).length then 1 / (((batch.getD ba []).length : ℚ)) else 0)) ∧
        (((List.range m).foldl (fun g2 i2 => write_cell batch ba i2 g2) g).pos_data
          (ba * cur_max_len batch + i) = (i : Int)) := by
  intro m
  induction m with
  | zero => intro g i h; omega
  | succ m ih =>
    intro g i h
    rw [List.range_succ, List.foldl_append]
    simp only [List.foldl_cons, List.foldl_nil]
    rcases Nat.lt_or_ge i m with h1 | h1
    · have h2 := ih g i h1
      have h3 : ba * cur_max_len batch + i ≠ ba * cur_max_len batch + m := by omega
      have h4 := write_cell_ne batch ba m
        ((List.range m).foldl (fun g2 i2 => write_cell batch ba i2 g2) g) h3
      exact ⟨h4.1.trans h2.1, (h4.2.1).trans h2.2.1,
        (h4.2.2.1).trans h2.2.2.1, (h4.2.2.2).trans h2.2.2.2⟩
    · have h2 : i = m := by omega
      subst h2
      exact write_cell_at batch ba i _

lemma mul_add_lt_ne {b ba L i j : Nat} (hb : b ≠ ba) (hi : i < L) (hj : j < L) :
    b * L + i ≠ ba * L + j := by
  rcases Nat.lt_or_ge b ba with h1 | h1
  · have h2 : (b + 1) * L ≤ ba * L := Nat.mul_le_mul_right L h1
    rw [Nat.add_mul, Nat.one_mul] at h2
    omega
  · have h3 : ba < b := by omega
    have h2 : (ba + 1) * L ≤ b * L := Nat.mul_le_mul_right L h3
    rw [Nat.add_mul, Nat.one_mul] at h2
    omega

lemma fill_inputs_read (batch : List (List Int)) :
    ∀ (n : Nat) (g : GraphInputs) (b i : Nat), b < n → i < cur_max_len batch →
      (((List.range n).foldl (fun g2 ba => fill_row batch ba g2) g).token_layer_data
          (b * cur_max_len batch + i)
          = (if i < (batch.getD b []).length then (batch.getD b []).getD i 0 else 101)) ∧
        (((List.range n).foldl (fun g2 ba => fill_row batch ba g2) g).pad_mask_data
          (b * cur_max_len batch + i)
          = (if i < (batch.getD b []).length then 1 else 0)) ∧
        (((List.range n).foldl (fun g2 ba => fill_row batch ba g2) g).sum_data
          (b * cur_max_len batch + i)
          = (if i < (batch.getD b []).length then 1 / (((batch.getD b []).length : ℚ)) else 0)) ∧
        (((List.range n).foldl (fun g2 ba => fill_row batch ba g2) g).pos_data
          (b * cur_max_len batch + i) = (i : Int)) := by
  intro n
  induction n with
  | zero => intro g b i h hi; omega
  | succ n ih =>
    intro g b i h hi
    rw [List.range_succ, List.foldl_append]
    simp only [List.foldl_cons, List.foldl_nil]
    rcases Nat.lt_or_ge b n with h1 | h1
    · have h2 := ih g b i h1 hi
      have h3 : ∀ j, j < cur_max_len batch →
          b * cur_max_len batch + i ≠ n * cur_max_len batch + j := by
        intro j hj
        exact mul_add_lt_ne (by omega) hi hj
      have h4 := fill_row_aux_ne batch n (cur_max_len batch)
        ((List.range n).foldl (fun g2 ba => fill_row batch ba g2) g) _ h3
      unfold fill_row
      exact ⟨h4.1.trans h2.1, (h4.2.1).trans h2.2.1,
        (h4.2.2.1).trans h2.2.2.1, (h4.2.2.2).trans h2.2.2.2⟩
    · have h2 : b = n := by omega
      subst h2
      unfold fill_row
      exact fill_row_aux_at batch b (cur_max_len batch) _ i hi

/-!  ## Claim theorems  -/

/--
Claim C1, counterexample: with an empty vocabulary, text "a b" and cap
n_max = 3, bert_tokenize returns [CLS, UNK, UNK, SEP] of length 4 > 3:
the UNK pushed for a word that emitted no tokens is not guarded by the
cap, so the returned length exceeds n_max.
-/
theorem c1_cap_overflow_counterexample :
    bert_tokenize empty_vocab [97, 32, 98] 3 = [101, 100, 100, 102] ∧
      ¬ ((bert_tokenize empty_vocab [97, 32, 98] 3).length ≤ 3) := by
  constructor
  · decide
  · decide

/--
Claim C1, amended: the token sequence always starts with CLS (101), ends
with SEP (102) and has length at least 2; vocabulary-matched emission
stops when the next push would bring the total to n_max (one slot is
reserved for SEP), but the per-word UNK fallback is not capped, so the
length is only bounded by max 1 (n_max - 1) + (number of words) + 1 and
can exceed n_max.
-/
theorem c1_tokenize_framing (vocab : bert_vocab) (text : List Nat) (nmax : Nat) :
    (bert_tokenize vocab text nmax).head? = some 101 ∧
      (bert_tokenize vocab text nmax).getLast? = some 102 ∧
      2 ≤ (bert_tokenize vocab text nmax).length ∧
      (bert_tokenize vocab text nmax).length ≤
        max 1 (nmax - 1) + (wordsOf text).length + 1 := by
  obtain ⟨tl, htl⟩ := tokenizeWords_fst_append vocab.token_to_id
    vocab.subword_token_to_id nmax (wordsOf text) [101] 1
  have hlen := tokenizeWords_snd_eq vocab.token_to_id
    vocab.subword_token_to_id nmax (wordsOf text) [101] 1
  have hle := tokenizeWords_snd_le vocab.token_to_id
    vocab.subword_token_to_id nmax (wordsOf text) [101] 1
  unfold bert_tokenize
  refine ⟨?_, ?_, ?_, ?_⟩
  · rw [htl]
    simp
  · simp [List.getLast?_concat]
  · rw [htl]
    simp
  · have h1 : (tokenizeWords vocab.token_to_id vocab.subword_token_to_id nmax
        (wordsOf text) [101] 1).1.length + 1 =
        (tokenizeWords vocab.token_to_id vocab.subword_token_to_id nmax
          (wordsOf text) [101] 1).2 + 1 := by
      simpa using hlen
    simp only [List.length_append, List.length_cons, List.length_nil]
    omega

/--
Claim C2: a miss in the greedy scan (no substring starting at the cursor
is in the active map) emits nothing, advances the cursor by exactly one
byte and switches the active map to the subword map; a word whose whole
scan emitted zero tokens contributes exactly one UNK id (100); and
tokenization is total, returning a non-empty sequence for every input.
-/
theorem c2_miss_and_unk :
    (∀ (subm m : TokenMap) (w : List Nat) (nmax fuel i t : Nat),
        i < w.length → ¬ (nmax - 1 ≤ t) → findFrom m w i w.length = none →
        scanWordF subm w nmax (fuel + 1) i t m =
          scanWordF subm w nmax fuel (i + 1) t subm) ∧
      (∀ (whole subm : TokenMap) (w : List Nat) (nmax t : Nat),
        (scanWordF subm w nmax (w.length + 1) 0 t whole).1 = [] →
        tokenizeWord whole subm w nmax t = ([100], t + 1)) ∧
      (∀ (vocab : bert_vocab) (text : List Nat) (nmax : Nat),
        bert_tokenize vocab text nmax ≠ []) := by
  refine ⟨?_, ?_, ?_⟩
  · intro subm m w nmax fuel i t h1 h2 h3
    simp only [scanWordF]
    rw [if_pos h1, if_neg h2, h3]
  · intro whole subm w nmax t h1
    have he := scan_snd_eq subm w nmax (w.length + 1) 0 t whole
    have h2 : (scanWordF subm w nmax (w.length + 1) 0 t whole).2 = t := by
      rw [he, h1]
      simp
    unfold tokenizeWord
    rw [if_pos h2, h1, h2]
    simp
  · intro vocab text nmax
    unfold bert_tokenize
    simp

/-- Claim C2 witness: concrete miss step, UNK emission and totality on the
one-byte word [97] with the empty maps. -/
theorem c2_witness :
    scanWordF (fun _ => none) wW 8 2 0 1 (fun _ => none) =
        scanWordF (fun _ => none) wW 8 1 1 1 (fun _ => none) ∧
      tokenizeWord (fun _ => none) (fun _ => none) wW 8 1 = ([100], 2) ∧
      bert_tokenize empty_vocab [] 8 ≠ [] :=
  ⟨c2_miss_and_unk.1 (fun _ => none) (fun _ => none) wW 8 1 0 1 (by decide)
      (by decide) (by decide),
    c2_miss_and_unk.2.1 (fun _ => none) (fun _ => none) wW 8 1 (by decide),
    c2_miss_and_unk.2.2 empty_vocab [] 8⟩

/--
Claim C10: the labeled-goto scan terminates: every continuing iteration
strictly advances the byte cursor, so the scan result is independent of
the fuel bound as soon as the fuel exceeds the number of remaining bytes;
in particular the fuel w.length + 1 used by bert_tokenize computes the
limit of the unbounded loop.
-/
theorem c10_scan_terminates (subm : TokenMap) (w : List Nat) (nmax : Nat) :
    ∀ (f1 f2 i t : Nat) (m : TokenMap), w.length - i < f1 → w.length - i < f2 →
      scanWordF subm w nmax f1 i t m = scanWordF subm w nmax f2 i t m := by
  intro f1
  induction f1 with
  | zero => intro f2 i t m h1 h2; omega
  | succ f1 ih =>
    intro f2 i t m h1 h2
    cases f2 with
    | zero => omega
    | succ f2 =>
      simp only [scanWordF]
      by_cases hi : i < w.length
      · rw [if_pos hi, if_pos hi]
        by_cases hc : nmax - 1 ≤ t
        · rw [if_pos hc, if_pos hc]
        · rw [if_neg hc, if_neg hc]
          rcases hm : findFrom m w i w.length with _ | ji
          · exact ih f2 (i + 1) t subm (by omega) (by omega)
          · have hj := findFrom_some hm
            have h3 := ih f2 ji.1 (t + 1) subm (by omega) (by omega)
            simp only [h3]
      · rw [if_neg hi, if_neg hi]

/-- Claim C10 witness: on the two-byte word [97, 98] the scan from cursor
0 gives the same result with fuel 3 and fuel 5. -/
theorem c10_witness :
    scanWordF (fun _ => none) [97, 98] 9 3 0 1 (fun _ => none) =
      scanWordF (fun _ => none) [97, 98] 9 5 0 1 (fun _ => none) :=
  c10_scan_terminates (fun _ => none) [97, 98] 9 3 5 0 1 (fun _ => none)
    (by decide) (by decide)

/--
Claim C3, counterexample: loading the one-entry token list [ "##a" ]
registers the surface in BOTH maps: sub["a"] = 0 and also whole["##a"] = 0,
because the two registration ifs of the loader are independent, not
exclusive.  This refutes "registered only in the subword map".
-/
theorem c3_hh_in_whole_map_counterexample :
    (bert_load_vocab [[35, 35, 97]]).token_to_id [35, 35, 97] = some 0 ∧
      (bert_load_vocab [[35, 35, 97]]).subword_token_to_id [97] = some 0 := by
  constructor
  · decide
  · decide

/--
Claim C3, amended: every entry — including those beginning with ## — is
registered in the whole-word map under its full surface when that surface
is not already present, so whole[w] is the index of the first occurrence
of w in the token list; independently, an entry of the form ##u is written
into the subword map under the stripped surface u with overwriting
assignment, so sub[u] is the index of the last entry of that form.
Within the whole-word map a surface therefore never receives two distinct
ids and the first occurrence is kept.
-/
theorem c3_vocab_maps (ts : List (List Nat)) (w u : List Nat) :
    (bert_load_vocab ts).token_to_id w = List.findIdx? (fun x => x == w) ts ∧
      (bert_load_vocab ts).subword_token_to_id u = last_hh_from 0 u ts := by
  constructor
  · rw [bert_load_vocab, load_vocab_from_token]
    rcases hfi : List.findIdx? (fun x => x == w) ts with _ | j <;>
      simp [empty_vocab, hfi]
  · rw [bert_load_vocab, load_vocab_from_sub]
    rcases hr : last_hh_from 0 u ts with _ | j <;> simp [empty_vocab, hr]

/--
Claim C4: the loader performs no divisibility check on hidden_size and
num_attention_heads.  With hidden_size = 10 and num_attention_heads = 3
(10 % 3 = 1 ≠ 0) bert_load_hparams succeeds, and the graph builder then
uses the truncated head dimension d_head = 10 / 3 = 3, instead of the
BadShape rejection the claim requires.
-/
theorem c4_no_divisibility_check :
    bert_load_hparams kvC4 kvfC4 = Except.ok hpC4 ∧
      hpC4.n_embd % hpC4.n_head ≠ 0 ∧
      d_head hpC4 = 3 := by
  refine ⟨rfl, by decide, rfl⟩

/--
Claim C5: outside measure mode, for every batch row b < B and position
i < L the filled input arrays satisfy: tokens[b*L+i] is the batch id when
i < n_b and the CLS id 101 at padding positions; pad_mask is 1 when
i < n_b and 0 otherwise; the mean-pool weight is exactly 1/n_b when
i < n_b and 0 otherwise; and pos[b*L+i] = i.  (f32 cells are modelled as
rationals.)
-/
theorem c5_input_fill (batch : List (List Int)) (g0 : GraphInputs) (b i : Nat)
    (hb : b < batch.length) (hi : i < cur_max_len batch) :
    (fill_inputs batch g0).token_layer_data (b * cur_max_len batch + i) =
        (if i < (batch.getD b []).length then (batch.getD b []).getD i 0 else 101) ∧
      (fill_inputs batch g0).pad_mask_data (b * cur_max_len batch + i) =
        (if i < (batch.getD b []).length then 1 else 0) ∧
      (fill_inputs batch g0).sum_data (b * cur_max_len batch + i) =
        (if i < (batch.getD b []).length then 1 / (((batch.getD b []).length : ℚ)) else 0) ∧
      (fill_inputs batch g0).pos_data (b * cur_max_len batch + i) = (i : Int) := by
  unfold fill_inputs
  exact fill_inputs_read batch batch.length g0 b i hb hi

/-- Claim C5 witness: in the batch [[5, 6], [7]] (padded length 2), row 1
position 1 is padding: token 101, mask 0, weight 0, position 1. -/
theorem c5_witness :
    (fill_inputs batchW g0W).token_layer_data (1 * cur_max_len batchW + 1) = 101 ∧
      (fill_inputs batchW g0W).pad_mask_data (1 * cur_max_len batchW + 1) = 0 ∧
      (fill_inputs batchW g0W).sum_data (1 * cur_max_len batchW + 1) = 0 ∧
      (fill_inputs batchW g0W).pos_data (1 * cur_max_len batchW + 1) = 1 :=
  c5_input_fill batchW g0W 1 1 (by decide) (by decide)

/--
Claim C6: the attention mask derived from the 0/1 padding mask via
M = pad * pad followed by (M - 1) * 1e5 is exactly 0 at (valid, valid)
pairs and exactly -100000 whenever at least one of the two positions is
padding.
-/
theorem c6_attention_mask (batch : List (List Int)) (g0 : GraphInputs)
    (b i j : Nat) (hb : b < batch.length) (hi : i < cur_max_len batch)
    (hj : j < cur_max_len batch) :
    attn_mask_val batch g0 b i j =
      if i < (batch.getD b []).length ∧ j < (batch.getD b []).length then 0
      else -100000 := by
  have h1 := (fill_inputs_read batch batch.length g0 b i hb hi).2.1
  have h2 := (fill_inputs_read batch batch.length g0 b j hb hj).2.1
  unfold attn_mask_val fill_inputs
  rw [h1, h2]
  by_cases hbi : i < (batch.getD b []).length <;>
    by_cases hbj : j < (batch.getD b []).length <;>
      simp only [hbi, hbj, if_true, if_false, true_and, and_true, and_false,
        false_and, if_pos, if_neg] <;>
    norm_num [hbi, hbj]

/-- Claim C6 witness: in the batch [[5, 6], [7]], row 1 has one valid
position, so the (0, 1) mask entry is -100000. -/
theorem c6_witness : attn_mask_val batchW g0W 1 0 1 = -100000 := by
  have h := c6_attention_mask batchW g0W 1 0 1 (by decide) (by decide) (by decide)
  simpa using h

/--
Claim C7: a batch longer than n_max_tokens is rejected by the graph
builder (null graph, no inputs written, nothing computed), BUT the
executor does not check for the null graph: bert_forward_batch passes it
to the allocator and dereferences gf->nodes (bert.cpp line 932), so the
forward pass crashes instead of leaving the context usable.
-/
theorem c7_overflow_crashes :
    bert_build_graph hpC7 batchC7 g0W = none ∧
      bert_forward_batch hpC7 batchC7 g0W = forward_result.crash_null_graph := by
  constructor
  · rfl
  · rfl

/-!  ## Helper lemmas: the pre-split  -/

lemma ispunct_ge127 {c : Nat} (h : 127 ≤ c) : ispunct c = false := by
  simp only [ispunct, Bool.or_eq_false_iff, Bool.and_eq_false_iff,
    decide_eq_false_iff_not]
  omega

lemma bert_presplit_punct_cons {c : Nat} (h1 : utf8_len c = 1)
    (h2 : ispunct c = true) (rest : List Nat) :
    bert_presplit (c :: rest) = 32 :: c :: 32 :: bert_presplit rest := by
  match rest with
  | [] => simp [bert_presplit, h1, h2]
  | [r1] => simp [bert_presplit, h1, h2]
  | r1 :: r2 :: rest2 => simp [bert_presplit, h1, h2]

lemma bert_presplit_plain1_cons {c : Nat} (h1 : utf8_len c = 1)
    (h2 : ispunct c = false) (rest : List Nat) :
    bert_presplit (c :: rest) = c :: bert_presplit rest := by
  match rest with
  | [] => simp [bert_presplit, h1, h2]
  | [r1] => simp [bert_presplit, h1, h2]
  | r1 :: r2 :: rest2 => simp [bert_presplit, h1, h2]

lemma bert_presplit_plain24_cons {c : Nat} (h1 : utf8_len c ≠ 1)
    (h3 : utf8_len c ≠ 3) (rest : List Nat) :
    bert_presplit (c :: rest) = c :: bert_presplit rest := by
  match rest with
  | [] => simp [bert_presplit, h1, h3]
  | [r1] => simp [bert_presplit, h1, h3]
  | r1 :: r2 :: rest2 => simp [bert_presplit, h1, h3]

lemma bert_presplit_cjk_cons {c r1 r2 : Nat} (h1 : utf8_len c = 3)
    (hch : is_chinese_char [c, r1, r2] = true) (rest : List Nat) :
    bert_presplit (c :: r1 :: r2 :: rest) =
      32 :: c :: r1 :: r2 :: 32 :: bert_presplit rest := by
  simp [bert_presplit, h1, hch]

lemma bert_presplit_len3_miss_cons {c r1 r2 : Nat} (h1 : utf8_len c = 3)
    (hch : is_chinese_char [c, r1, r2] = false) (rest : List Nat) :
    bert_presplit (c :: r1 :: r2 :: rest) =
      c :: bert_presplit (r1 :: r2 :: rest) := by
  simp [bert_presplit, h1, hch]

lemma presplit_spec_punct_cons {c : Nat} (h1 : utf8_len c = 1)
    (h2 : ispunct c = true) (rest : List Nat) :
    presplit_spec (c :: rest) = 32 :: c :: 32 :: presplit_spec rest := by
  match rest with
  | [] => simp [presplit_spec, h1, h2]
  | [r1] => simp [presplit_spec, h1, h2]
  | [r1, r2] => simp [presplit_spec, h1, h2]
  | r1 :: r2 :: r3 :: rest3 => simp [presplit_spec, h1, h2]

lemma presplit_spec_plain1_cons {c : Nat} (h1 : utf8_len c = 1)
    (h2 : ispunct c = false) (rest : List Nat) :
    presplit_spec (c :: rest) = c :: presplit_spec rest := by
  match rest with
  | [] => simp [presplit_spec, h1, h2]
  | [r1] => simp [presplit_spec, h1, h2]
  | [r1, r2] => simp [presplit_spec, h1, h2]
  | r1 :: r2 :: r3 :: rest3 => simp [presplit_spec, h1, h2]

lemma presplit_spec_2_cons {c r1 : Nat} (h1 : utf8_len c = 2) (rest : List Nat) :
    presplit_spec (c :: r1 :: rest) = c :: r1 :: presplit_spec rest := by
  match rest with
  | [] => simp [presplit_spec, h1]
  | [r2] => simp [presplit_spec, h1]
  | r2 :: r3 :: rest3 => simp [presplit_spec, h1]

lemma presplit_spec_cjk_cons {c r1 r2 : Nat} (h1 : utf8_len c = 3)
    (hch : is_chinese_char [c, r1, r2] = true) (rest : List Nat) :
    presplit_spec (c :: r1 :: r2 :: rest) =
      32 :: c :: r1 :: r2 :: 32 :: presplit_spec rest := by
  match rest with
  | [] => simp [presplit_spec, h1, hch]
  | r3 :: rest3 => simp [presplit_spec, h1, hch]

lemma presplit_spec_len3_miss_cons {c r1 r2 : Nat} (h1 : utf8_len c = 3)
    (hch : is_chinese_char [c, r1, r2] = false) (rest : List Nat) :
    presplit_spec (c :: r1 :: r2 :: rest) =
      c :: r1 :: r2 :: presplit_spec rest := by
  match rest with
  | [] => simp [presplit_spec, h1, hch]
  | r3 :: rest3 => simp [presplit_spec, h1, hch]

lemma presplit_spec_4_cons {c r1 r2 r3 : Nat} (h1 : utf8_len c = 4)
    (rest : List Nat) :
    presplit_spec (c :: r1 :: r2 :: r3 :: rest) =
      c :: r1 :: r2 :: r3 :: presplit_spec rest := by
  simp [presplit_spec, h1]

/--
Claim C9: on well-formed UTF-8 input the pre-split of bert_tokenize
inserts a single space before and after exactly the 1-byte punctuation
codepoints and the 3-byte codepoints accepted by is_chinese_char (whose
ranges include the quirk range 0x2B920..0x2CEAF), and copies every other
codepoint verbatim: the byte-at-a-time loop of the source coincides with
the codepoint-walk description of the spec.
-/
theorem c9_presplit_refines : ∀ (s : List Nat), ValidUTF8 s →
    bert_presplit s = presplit_spec s := by
  intro s h
  induction h with
  | nil => rfl
  | @one c rest hc hv ih =>
    have hlen : utf8_len c = 1 := utf8_len_eq_one (Or.inl (by omega))
    by_cases hp : ispunct c = true
    · rw [bert_presplit_punct_cons hlen hp, presplit_spec_punct_cons hlen hp, ih]
    · have hp2 : ispunct c = false := by
        simpa using hp
      rw [bert_presplit_plain1_cons hlen hp2, presplit_spec_plain1_cons hlen hp2,
        ih]
  | @two c r1 rest h192 h223 hcont hv ih =>
    obtain ⟨hca, hcb⟩ := hcont
    have hlen : utf8_len c = 2 := utf8_len_eq_two h192 (by omega)
    have hlen1 : utf8_len r1 = 1 := utf8_len_eq_one (Or.inl (by omega))
    have hp1 : ispunct r1 = false := ispunct_ge127 (by omega)
    rw [bert_presplit_plain24_cons (by omega) (by omega),
      bert_presplit_plain1_cons hlen1 hp1, ih, presplit_spec_2_cons hlen]
  | @three c r1 r2 rest h224 h239 hcont1 hcont2 hv ih =>
    obtain ⟨hca, hcb⟩ := hcont1
    obtain ⟨hcc, hcd⟩ := hcont2
    have hlen : utf8_len c = 3 := utf8_len_eq_three h224 (by omega)
    have hlen1 : utf8_len r1 = 1 := utf8_len_eq_one (Or.inl (by omega))
    have hp1 : ispunct r1 = false := ispunct_ge127 (by omega)
    have hlen2 : utf8_len r2 = 1 := utf8_len_eq_one (Or.inl (by omega))
    have hp2 : ispunct r2 = false := ispunct_ge127 (by omega)
    by_cases hch : is_chinese_char [c, r1, r2] = true
    · rw [bert_presplit_cjk_cons hlen hch, presplit_spec_cjk_cons hlen hch, ih]
    · have hch2 : is_chinese_char [c, r1, r2] = false := by
        simpa using hch
      rw [bert_presplit_len3_miss_cons hlen hch2,
        bert_presplit_plain1_cons hlen1 hp1,
        bert_presplit_plain1_cons hlen2 hp2, ih,
        presplit_spec_len3_miss_cons hlen hch2]
  | @four c r1 r2 r3 rest h240 h247 hcont1 hcont2 hcont3 hv ih =>
    obtain ⟨hca, hcb⟩ := hcont1
    obtain ⟨hcc, hcd⟩ := hcont2
    obtain ⟨hce, hcf⟩ := hcont3
    have hlen : utf8_len c = 4 := utf8_len_eq_four h240 (by omega)
    have hlen1 : utf8_len r1 = 1 := utf8_len_eq_one (Or.inl (by omega))
    have hp1 : ispunct r1 = false := ispunct_ge127 (by omega)
    have hlen2 : utf8_len r2 = 1 := utf8_len_eq_one (Or.inl (by omega))
    have hp2 : ispunct r2 = false := ispunct_ge127 (by omega)
    have hlen3 : utf8_len r3 = 1 := utf8_len_eq_one (Or.inl (by omega))
    have hp3 : ispunct r3 = false := ispunct_ge127 (by omega)
    rw [bert_presplit_plain24_cons (by omega) (by omega),
      bert_presplit_plain1_cons hlen1 hp1,
      bert_presplit_plain1_cons hlen2 hp2,
      bert_presplit_plain1_cons hlen3 hp3, ih,
      presplit_spec_4_cons hlen]

/-- Claim C9 witness: on the valid string "h," followed by the CJK
codepoint U+4F60 the two pre-splits agree. -/
theorem c9_witness : bert_presplit sC9 = presplit_spec sC9 :=
  c9_presplit_refines sC9
    (ValidUTF8.one (by decide)
      (ValidUTF8.one (by decide)
        (ValidUTF8.three (by decide) (by decide) ⟨by decide, by decide⟩
          ⟨by decide, by decide⟩ ValidUTF8.nil)))

/-!  ## Helper lemmas: normalization  -/

lemma utf8_len_cases (c : Nat) :
    utf8_len c = 1 ∨ utf8_len c = 2 ∨ utf8_len c = 3 ∨ utf8_len c = 4 := by
  rcases Nat.lt_or_ge c 192 with h | h
  · exact Or.inl (utf8_len_eq_one (Or.inl h))
  rcases Nat.lt_or_ge c 224 with h2 | h2
  · exact Or.inr (Or.inl (utf8_len_eq_two h h2))
  rcases Nat.lt_or_ge c 240 with h3 | h3
  · exact Or.inr (Or.inr (Or.inl (utf8_len_eq_three h2 h3)))
  rcases Nat.lt_or_ge c 256 with h4 | h4
  · exact Or.inr (Or.inr (Or.inr (utf8_len_eq_four h3 h4)))
  · exact Or.inl (utf8_len_eq_one (Or.inr h4))

lemma accentLookup_some {c r1 a : Nat} (h : accentLookup [c, r1] = some a) :
    65 ≤ a ∧ a ≤ 121 := by
  simp only [accentLookup] at h
  split_ifs at h with h1
  exact accentFold_some h

lemma strip_accents_1_cons {c : Nat} (h1 : utf8_len c = 1) (rest : List Nat) :
    strip_accents (c :: rest) = foldChunk [c] ++ strip_accents rest := by
  match rest with
  | [] => simp [strip_accents, h1]
  | [r1] => simp [strip_accents, h1]
  | [r1, r2] => simp [strip_accents, h1]
  | r1 :: r2 :: r3 :: rest3 => simp [strip_accents, h1]

lemma strip_accents_2_cons {c : Nat} (h1 : utf8_len c = 2) (r1 : Nat)
    (rest : List Nat) :
    strip_accents (c :: r1 :: rest) = foldChunk [c, r1] ++ strip_accents rest := by
  match rest with
  | [] => simp [strip_accents, h1]
  | [r2] => simp [strip_accents, h1]
  | r2 :: r3 :: rest3 => simp [strip_accents, h1]

lemma strip_accents_3_cons {c : Nat} (h1 : utf8_len c = 3) (r1 r2 : Nat)
    (rest : List Nat) :
    strip_accents (c :: r1 :: r2 :: rest) =
      foldChunk [c, r1, r2] ++ strip_accents rest := by
  match rest with
  | [] => simp [strip_accents, h1]
  | r3 :: rest3 => simp [strip_accents, h1]

lemma strip_accents_4_cons {c : Nat} (h1 : utf8_len c = 4) (r1 r2 r3 : Nat)
    (rest : List Nat) :
    strip_accents (c :: r1 :: r2 :: r3 :: rest) =
      foldChunk [c, r1, r2, r3] ++ strip_accents rest := by
  simp [strip_accents, h1]

lemma strip_accents_trunc1 {c : Nat} (h1 : utf8_len c ≠ 1) :
    strip_accents [c] = foldChunk [c] := by
  simp [strip_accents, h1]

lemma strip_accents_trunc2 {c : Nat} (h1 : utf8_len c ≠ 1)
    (h2 : utf8_len c ≠ 2) (r1 : Nat) :
    strip_accents [c, r1] = foldChunk [c, r1] := by
  simp [strip_accents, h1, h2]

lemma strip_accents_trunc3 {c : Nat} (h1 : utf8_len c ≠ 1)
    (h2 : utf8_len c ≠ 2) (h3 : utf8_len c ≠ 3) (r1 r2 : Nat) :
    strip_accents [c, r1, r2] = foldChunk [c, r1, r2] := by
  simp [strip_accents, h1, h2, h3]

lemma lower_walk_upper_cons {c : Nat} (h : 65 ≤ c ∧ c ≤ 90) (rest : List Nat) :
    lower_walk (c :: rest) = (c + 32) :: lower_walk rest := by
  have hlen : utf8_len (c + 32) = 1 := utf8_len_eq_one (Or.inl (by omega))
  match rest with
  | [] => simp [lower_walk, h, hlen]
  | [r1] => simp [lower_walk, h, hlen]
  | [r1, r2] => simp [lower_walk, h, hlen]
  | r1 :: r2 :: r3 :: rest3 => simp [lower_walk, h, hlen]

lemma lower_walk_1_cons {c : Nat} (h : ¬ (65 ≤ c ∧ c ≤ 90))
    (h1 : utf8_len c = 1) (rest : List Nat) :
    lower_walk (c :: rest) = c :: lower_walk rest := by
  match rest with
  | [] => simp [lower_walk, h, h1]
  | [r1] => simp [lower_walk, h, h1]
  | [r1, r2] => simp [lower_walk, h, h1]
  | r1 :: r2 :: r3 :: rest3 => simp [lower_walk, h, h1]

lemma lower_walk_2_cons {c : Nat} (h1 : utf8_len c = 2) (r1 : Nat)
    (rest : List Nat) :
    lower_walk (c :: r1 :: rest) = c :: r1 :: lower_walk rest := by
  have hb := of_utf8_len_two h1
  have h : ¬ (65 ≤ c ∧ c ≤ 90) := by omega
  match rest with
  | [] => simp [lower_walk, h, h1]
  | [r2] => simp [lower_walk, h, h1]
  | r2 :: r3 :: rest3 => simp [lower_walk, h, h1]

lemma lower_walk_3_cons {c : Nat} (h1 : utf8_len c = 3) (r1 r2 : Nat)
    (rest : List Nat) :
    lower_walk (c :: r1 :: r2 :: rest) = c :: r1 :: r2 :: lower_walk rest := by
  have hb := of_utf8_len_three h1
  have h : ¬ (65 ≤ c ∧ c ≤ 90) := by omega
  match rest with
  | [] => simp [lower_walk, h, h1]
  | r3 :: rest3 => simp [lower_walk, h, h1]

lemma lower_walk_4_cons {c : Nat} (h1 : utf8_len c = 4) (r1 r2 r3 : Nat)
    (rest : List Nat) :
    lower_walk (c :: r1 :: r2 :: r3 :: rest) =
      c :: r1 :: r2 :: r3 :: lower_walk rest := by
  have hb := of_utf8_len_not123 (c := c) (by simp [h1]) (by simp [h1])
    (by simp [h1])
  have h : ¬ (65 ≤ c ∧ c ≤ 90) := by omega
  simp [lower_walk, h, h1]

lemma lower_walk_trunc1 {c : Nat} (h1 : utf8_len c ≠ 1) :
    lower_walk [c] = [c] := by
  have hb := of_utf8_len_not1 h1
  have h : ¬ (65 ≤ c ∧ c ≤ 90) := by omega
  simp [lower_walk, h, h1]

lemma lower_walk_trunc2 {c : Nat} (h1 : utf8_len c ≠ 1) (h2 : utf8_len c ≠ 2)
    (r1 : Nat) : lower_walk [c, r1] = [c, r1] := by
  have hb := of_utf8_len_not1 h1
  have h : ¬ (65 ≤ c ∧ c ≤ 90) := by omega
  simp [lower_walk, h, h1, h2]

lemma lower_walk_trunc3 {c : Nat} (h1 : utf8_len c ≠ 1) (h2 : utf8_len c ≠ 2)
    (h3 : utf8_len c ≠ 3) (r1 r2 : Nat) : lower_walk [c, r1, r2] = [c, r1, r2] := by
  have hb := of_utf8_len_not1 h1
  have h : ¬ (65 ≤ c ∧ c ≤ 90) := by omega
  simp [lower_walk, h, h1, h2, h3]

lemma lower_walk_idem_aux : ∀ (n : Nat) (s : List Nat), s.length ≤ n →
    lower_walk (lower_walk s) = lower_walk s := by
  intro n
  induction n with
  | zero =>
    intro s h
    cases s with
    | nil => rfl
    | cons c rest => simp at h
  | succ n ih =>
    intro s h
    cases s with
    | nil => rfl
    | cons c rest =>
      by_cases hup : 65 ≤ c ∧ c ≤ 90
      · rw [lower_walk_upper_cons hup]
        rw [lower_walk_1_cons (by omega) (utf8_len_eq_one (Or.inl (by omega)))]
        rw [ih rest (by simp only [List.length_cons] at h; omega)]
      · rcases utf8_len_cases c with h1 | h1 | h1 | h1
        · rw [lower_walk_1_cons hup h1, lower_walk_1_cons hup h1,
            ih rest (by simp only [List.length_cons] at h; omega)]
        · rcases rest with _ | ⟨r1, rest1⟩
          · rw [lower_walk_trunc1 (by simp [h1]), lower_walk_trunc1 (by simp [h1])]
          · rw [lower_walk_2_cons h1, lower_walk_2_cons h1,
              ih rest1 (by simp only [List.length_cons] at h; omega)]
        · rcases rest with _ | ⟨r1, _ | ⟨r2, rest2⟩⟩
          · rw [lower_walk_trunc1 (by simp [h1]), lower_walk_trunc1 (by simp [h1])]
          · rw [lower_walk_trunc2 (by simp [h1]) (by simp [h1]),
              lower_walk_trunc2 (by simp [h1]) (by simp [h1])]
          · rw [lower_walk_3_cons h1, lower_walk_3_cons h1,
              ih rest2 (by simp only [List.length_cons] at h; omega)]
        · rcases rest with _ | ⟨r1, _ | ⟨r2, _ | ⟨r3, rest3⟩⟩⟩
          · rw [lower_walk_trunc1 (by simp [h1]), lower_walk_trunc1 (by simp [h1])]
          · rw [lower_walk_trunc2 (by simp [h1]) (by simp [h1]),
              lower_walk_trunc2 (by simp [h1]) (by simp [h1])]
          · rw [lower_walk_trunc3 (by simp [h1]) (by simp [h1]) (by simp [h1]),
              lower_walk_trunc3 (by simp [h1]) (by simp [h1]) (by simp [h1])]
          · rw [lower_walk_4_cons h1, lower_walk_4_cons h1,
              ih rest3 (by simp only [List.length_cons] at h; omega)]

lemma lower_walk_idem (s : List Nat) :
    lower_walk (lower_walk s) = lower_walk s :=
  lower_walk_idem_aux s.length s le_rfl

lemma strip_lower_strip_aux : ∀ (n : Nat) (s : List Nat), s.length ≤ n →
    strip_accents (lower_walk (strip_accents s)) = lower_walk (strip_accents s) := by
  intro n
  induction n with
  | zero =>
    intro s h
    cases s with
    | nil => rfl
    | cons c rest => simp at h
  | succ n ih =>
    intro s h
    cases s with
    | nil => rfl
    | cons c rest =>
      rcases utf8_len_cases c with h1 | h1 | h1 | h1
      · rw [strip_accents_1_cons h1, foldChunk_one, List.singleton_append]
        by_cases hup : 65 ≤ c ∧ c ≤ 90
        · rw [lower_walk_upper_cons hup]
          rw [strip_accents_1_cons (utf8_len_eq_one (Or.inl (by omega))),
            foldChunk_one, List.singleton_append]
          rw [ih rest (by simp only [List.length_cons] at h; omega)]
        · rw [lower_walk_1_cons hup h1]
          rw [strip_accents_1_cons h1, foldChunk_one, List.singleton_append]
          rw [ih rest (by simp only [List.length_cons] at h; omega)]
      · rcases rest with _ | ⟨r1, rest1⟩
        · rw [strip_accents_trunc1 (by simp [h1]), foldChunk_one]
          rw [lower_walk_trunc1 (by simp [h1])]
          rw [strip_accents_trunc1 (by simp [h1]), foldChunk_one]
        · rw [strip_accents_2_cons h1]
          rcases hfc : accentLookup [c, r1] with _ | a
          · rw [show foldChunk [c, r1] = [c, r1] from by simp [foldChunk, hfc]]
            simp only [List.cons_append, List.nil_append]
            rw [lower_walk_2_cons h1]
            rw [strip_accents_2_cons h1]
            rw [show foldChunk [c, r1] = [c, r1] from by simp [foldChunk, hfc]]
            simp only [List.cons_append, List.nil_append]
            rw [ih rest1 (by simp only [List.length_cons] at h; omega)]
          · have hb := accentLookup_some hfc
            rw [show foldChunk [c, r1] = [a] from by simp [foldChunk, hfc]]
            rw [List.singleton_append]
            have hl1 : utf8_len a = 1 := utf8_len_eq_one (Or.inl (by omega))
            by_cases hup : 65 ≤ a ∧ a ≤ 90
            · rw [lower_walk_upper_cons hup]
              rw [strip_accents_1_cons (utf8_len_eq_one (Or.inl (by omega))),
                foldChunk_one, List.singleton_append]
              rw [ih rest1 (by simp only [List.length_cons] at h; omega)]
            · rw [lower_walk_1_cons hup hl1]
              rw [strip_accents_1_cons hl1, foldChunk_one, List.singleton_append]
              rw [ih rest1 (by simp only [List.length_cons] at h; omega)]
      · have hc3 := of_utf8_len_three h1
        rcases rest with _ | ⟨r1, _ | ⟨r2, rest2⟩⟩
        · rw [strip_accents_trunc1 (by simp [h1]), foldChunk_one]
          rw [lower_walk_trunc1 (by simp [h1])]
          rw [strip_accents_trunc1 (by simp [h1]), foldChunk_one]
        · rw [strip_accents_trunc2 (by simp [h1]) (by simp [h1]),
            foldChunk_ne195 r1 (by omega)]
          rw [lower_walk_trunc2 (by simp [h1]) (by simp [h1])]
          rw [strip_accents_trunc2 (by simp [h1]) (by simp [h1]),
            foldChunk_ne195 r1 (by omega)]
        · rw [strip_accents_3_cons h1, foldChunk_three]
          simp only [List.cons_append, List.nil_append]
          rw [lower_walk_3_cons h1]
          rw [strip_accents_3_cons h1, foldChunk_three]
          simp only [List.cons_append, List.nil_append]
          rw [ih rest2 (by simp only [List.length_cons] at h; omega)]
      · have hc4 := of_utf8_len_not123 (c := c) (by simp [h1]) (by simp [h1])
          (by simp [h1])
        rcases rest with _ | ⟨r1, _ | ⟨r2, _ | ⟨r3, rest3⟩⟩⟩
        · rw [strip_accents_trunc1 (by simp [h1]), foldChunk_one]
          rw [lower_walk_trunc1 (by simp [h1])]
          rw [strip_accents_trunc1 (by simp [h1]), foldChunk_one]
        · rw [strip_accents_trunc2 (by simp [h1]) (by simp [h1]),
            foldChunk_ne195 r1 (by omega)]
          rw [lower_walk_trunc2 (by simp [h1]) (by simp [h1])]
          rw [strip_accents_trunc2 (by simp [h1]) (by simp [h1]),
            foldChunk_ne195 r1 (by omega)]
        · rw [strip_accents_trunc3 (by simp [h1]) (by simp [h1]) (by simp [h1]),
            foldChunk_three]
          rw [lower_walk_trunc3 (by simp [h1]) (by simp [h1]) (by simp [h1])]
          rw [strip_accents_trunc3 (by simp [h1]) (by simp [h1]) (by simp [h1]),
            foldChunk_three]
        · rw [strip_accents_4_cons h1, foldChunk_four]
          simp only [List.cons_append, List.nil_append]
          rw [lower_walk_4_cons h1]
          rw [strip_accents_4_cons h1, foldChunk_four]
          simp only [List.cons_append, List.nil_append]
          rw [ih rest3 (by simp only [List.length_cons] at h; omega)]

lemma strip_lower_strip (s : List Nat) :
    strip_accents (lower_walk (strip_accents s)) = lower_walk (strip_accents s) :=
  strip_lower_strip_aux s.length s le_rfl

/--
Claim C8: the normalizer is idempotent on every byte string: a second
pass of accent stripping followed by ASCII lowercasing leaves the output
of the first pass unchanged (stripping produces only ASCII folds and
chunks the accent map missed, and lowering alters only walk-position
ASCII capitals, which stripping then passes through).
-/
theorem c8_normalize_idempotent (s : List Nat) :
    bert_normalize_prompt (bert_normalize_prompt s) = bert_normalize_prompt s := by
  unfold bert_normalize_prompt
  rw [strip_lower_strip s]
  exact lower_walk_idem (strip_accents s)
